import Mathlib

/-!
Verification development for the point-filtering engine of
`mountain-river-waterlevels` (`utils/data_processor.py`).

The engine works on pandas DataFrames.  We embed a DataFrame as a list of
rows together with two flags recording whether the `ht_water_surf` and
`delta_time` columns are present.  A row carries the water-surface height
(`none` encodes NaN / a missing value), the `delta_time` value (only
meaningful when the column is present) and an opaque payload standing for
all remaining columns (latitude, longitude, quality flags, ...), which the
filters only ever copy.

Machine floats are embedded as exact rationals; NaN is `Option.none`.
The external DBSCAN clustering routine (scikit-learn) is an explicit
function parameter; `none` models the routine raising an exception.
-/

namespace IceWeb

/-- One point record.  `ht = none` models a NaN/missing `ht_water_surf`
entry; `payload` stands for every other (pass-through) column. -/
structure Row where
  ht : Option ℚ
  dtime : ℚ
  payload : ℕ
deriving DecidableEq, Repr

/-- A pandas DataFrame: column-presence flags plus the ordered rows. -/
structure PDataFrame where
  hasHt : Bool
  hasDtime : Bool
  rows : List Row
deriving DecidableEq, Repr

/-- `pd.DataFrame()` — the frame with no columns and no rows. -/
def emptyDF : PDataFrame := ⟨false, false, []⟩

instance rowDtimeLE : DecidableRel (fun a b : Row => a.dtime ≤ b.dtime) :=
  fun a b => inferInstanceAs (Decidable (a.dtime ≤ b.dtime))

/-- `df.sort_values("delta_time")` when the column is present, else the
input order.  (pandas' default quicksort is unstable on ties; we use a
stable sort — no claim depends on the order of equal `delta_time` rows.) -/
def sortWork (df : PDataFrame) : List Row :=
  if df.hasDtime then df.rows.insertionSort (fun a b => a.dtime ≤ b.dtime)
  else df.rows

/-- Valid (non-NaN) heights of a frame, in row order: `df["ht_water_surf"].dropna()`. -/
def PDataFrame.valids (df : PDataFrame) : List ℚ :=
  df.rows.filterMap (·.ht)

/-- Linear interpolation at fractional position `x` into the sorted list
`s` (the core of numpy's default percentile method): with `i = ⌊x⌋`,
returns `s[i] + (x - i) * (s[i+1] - s[i])`, reading `s[i+1]` as `s[i]`
past the end. -/
def interpAt (s : List ℚ) (x : ℚ) : ℚ :=
  s.getD (⌊x⌋).toNat 0 +
    (x - ((⌊x⌋).toNat : ℚ)) *
      (s.getD ((⌊x⌋).toNat + 1) (s.getD (⌊x⌋).toNat 0) - s.getD (⌊x⌋).toNat 0)

/-- `np.percentile(xs, p)` with the default linear-interpolation method,
for a nonempty `xs` and `0 ≤ p ≤ 100`: interpolate at position
`p * (n - 1) / 100` into the ascending sort of `xs`. -/
def npPercentileQ (xs : List ℚ) (p : ℚ) : ℚ :=
  let s := xs.insertionSort (· ≤ ·)
  interpAt s (p * ((s.length : ℚ) - 1) / 100)

/-- `np.percentile` as actually callable: numpy validates the percentile
range first, raising a `ValueError` for percentiles outside `[0, 100]`,
and only then touches the data, raising an `IndexError` ("cannot do a
non-empty take from an empty axes") on an empty sample. -/
def npPercentileE (xs : List ℚ) (p : ℚ) : Except String ℚ :=
  if p < 0 ∨ 100 < p then .error "Percentiles must be in the range [0, 100]"
  else if xs = [] then .error "cannot do a non-empty take from an empty axes"
  else .ok (npPercentileQ xs p)

/-- Row mask for the percentile filter:
`(df.ht_water_surf >= q_lower) & (df.ht_water_surf <= q_upper)`;
NaN compares false on both sides. -/
def percentileMask (qlo qhi : ℚ) (r : Row) : Bool :=
  match r.ht with
  | some e => decide (qlo ≤ e) && decide (e ≤ qhi)
  | none => false

/-- `method_middle_percentile(df, lower_percentile, upper_percentile)`.
Early-outs to `(pd.DataFrame(), 0, 0)` when the frame is empty or the
height column is absent; otherwise computes the two percentiles over the
non-NaN heights (which can raise, hence `Except`) and keeps the rows whose
height lies in the closed interval, in original row order. -/
def method_middle_percentile (df : PDataFrame) (lower_percentile upper_percentile : ℚ) :
    Except String (PDataFrame × ℕ × ℕ) :=
  if df.rows = [] ∨ df.hasHt = false then .ok (emptyDF, 0, 0)
  else
    match npPercentileE df.valids lower_percentile with
    | .error e => .error e
    | .ok qlo =>
      match npPercentileE df.valids upper_percentile with
      | .error e => .error e
      | .ok qhi =>
        .ok (⟨df.hasHt, df.hasDtime, df.rows.filter (percentileMask qlo qhi)⟩,
          df.rows.length, (df.rows.filter (percentileMask qlo qhi)).length)

instance exceptDecEq {ε α : Type} [DecidableEq ε] [DecidableEq α] :
    DecidableEq (Except ε α) := fun x y =>
  match x, y with
  | .ok a, .ok b =>
    if h : a = b then isTrue (by rw [h]) else isFalse (fun hc => h (Except.ok.inj hc))
  | .error a, .error b =>
    if h : a = b then isTrue (by rw [h]) else isFalse (fun hc => h (Except.error.inj hc))
  | .ok a, .error b => isFalse (fun hc => Except.noConfusion hc)
  | .error a, .ok b => isFalse (fun hc => Except.noConfusion hc)

/-- Mean of a list of rationals (meaningful for nonempty lists). -/
def listMeanQ (l : List ℚ) : ℚ := l.sum / (l.length : ℚ)

/-- `np.median` over the valid case: the 50th linear-interpolation
percentile (the mean of the two middle order statistics for even length). -/
def npMedianQ (l : List ℚ) : ℚ := npPercentileQ l 50

/-- Population variance (`np.std(...)**2`, `ddof = 0`):
`Σ (x - mean)² / n`. -/
def popVarQ (l : List ℚ) : ℚ :=
  (l.map (fun x => (x - listMeanQ l) ^ 2)).sum / (l.length : ℚ)

/-- Sample variance (pandas `std`, `ddof = 1`): `Σ (x - mean)² / (n - 1)`
(meaningful for length ≥ 2). -/
def sampleVarQ (l : List ℚ) : ℚ :=
  (l.map (fun x => (x - listMeanQ l) ^ 2)).sum / ((l.length : ℚ) - 1)

/-- `np.median` on a raw height column: numpy does not skip NaNs, so any
NaN (or an empty array) makes the result NaN. -/
def npMedianOpt (hs : List (Option ℚ)) : Option ℚ :=
  if hs = [] ∨ hs.any (·.isNone) then none else some (npMedianQ (hs.filterMap id))

/-- `np.std` (squared) on a raw height column, with the same NaN rules. -/
def npVarPopOpt (hs : List (Option ℚ)) : Option ℚ :=
  if hs = [] ∨ hs.any (·.isNone) then none else some (popVarQ (hs.filterMap id))

/-- The comparison `|h - median| <= threshold_std * std` where
`std = √var`, encoded exactly over ℚ: for `var = 0` it reduces to
`h = median` (whatever the sign of the threshold), and for `var > 0`
it requires a nonnegative threshold and holds iff the squared deviation
is at most `t² · var`.  `sqKeep_iff_sqrt` below proves this is exactly
the square-root comparison. -/
def sqKeep (h med t var : ℚ) : Bool :=
  if var = 0 then decide (h = med)
  else decide (0 ≤ t) && decide ((h - med) ^ 2 ≤ t ^ 2 * var)

/-- Apply a boolean mask to a row list, position by position
(numpy/pandas boolean indexing `df_work[mask]`). -/
def applyMask (l : List Row) (m : List Bool) : List Row :=
  ((l.zip m).filter (·.2)).map (·.1)

/-- Centered rolling window of pandas
`rolling(window=w, center=True, min_periods=1)` at position `i`:
indices `[i + 1 + (w-1)/2 - w, i + (w-1)/2]`, truncated at the ends. -/
def rollWindow (hs : List (Option ℚ)) (w i : ℕ) : List (Option ℚ) :=
  let offset := (w - 1) / 2
  let start := i + 1 + offset - w
  let stop := min (i + 1 + offset) hs.length
  (hs.drop start).take (stop - start)

/-- Rolling median: pandas rolling aggregations skip NaNs and compare the
count of valid observations against `min_periods = 1`. -/
def rollMedian (hs : List (Option ℚ)) (w i : ℕ) : Option ℚ :=
  if (rollWindow hs w i).filterMap id = [] then none
  else some (npMedianQ ((rollWindow hs w i).filterMap id))

/-- Rolling sample variance (pandas rolling `std` squared, `ddof = 1`):
NaN (i.e. `none`) when fewer than two valid observations fall in the
window. -/
def rollVar (hs : List (Option ℚ)) (w i : ℕ) : Option ℚ :=
  if 2 ≤ ((rollWindow hs w i).filterMap id).length
  then some (sampleVarQ ((rollWindow hs w i).filterMap id)) else none

/-- Row keep-mask of the global fallback branch of the sliding filter:
`np.abs(heights - median) <= threshold_std * std` with the dataset-wide
median and (population) standard deviation. -/
def globalMaskRow (med var : Option ℚ) (t : ℚ) (h : Option ℚ) : Bool :=
  match h, med, var with
  | some hv, some m, some v => sqKeep hv m t v
  | _, _, _ => false

/-- Keep-mask of the rolling branch at position `i`:
`np.abs(heights - rolling_median) <= threshold_std * rolling_std`;
any NaN among the three operands compares false. -/
def rollingMaskAt (hs : List (Option ℚ)) (w : ℕ) (t : ℚ) (i : ℕ) : Bool :=
  match hs.getD i none, rollMedian hs w i, rollVar hs w i with
  | some h, some m, some v => sqKeep h m t v
  | _, _, _ => false

/-- The sorted height column `heights = df_work["ht_water_surf"].values`. -/
def workHeights (df : PDataFrame) : List (Option ℚ) :=
  (sortWork df).map (·.ht)

/-- Surviving rows of the global-statistics fallback branch
(`len(heights) < window_size`) of the sliding filter. -/
def slidingGlobalKept (df : PDataFrame) (t : ℚ) : List Row :=
  applyMask (sortWork df)
    ((workHeights df).map
      (globalMaskRow (npMedianOpt (workHeights df)) (npVarPopOpt (workHeights df)) t))

/-- Surviving rows of the rolling branch of the sliding filter.  The mask
is applied positionally to the sorted rows; the source's `df_work[mask]`
selects through a boolean *Series*, whose fresh RangeIndex label-aligns
against the `delta_time`-permuted index of `df_work`, so under a
permuting sort the surviving *set* can differ from this positional
reading (they coincide when no `delta_time` column is present).  The
retained count, membership in the input and monotonicity in the
threshold — all any claim states about this branch — are identical under
either reading, since both select by a mask whose popcount and pointwise
ordering are the same. -/
def slidingRollingKept (df : PDataFrame) (w : ℕ) (t : ℚ) : List Row :=
  applyMask (sortWork df)
    ((List.range df.rows.length).map (rollingMaskAt (workHeights df) w t))

/-- `method_sliding_median(df, window_size, threshold_std)`.
Empty frame or absent height column: `(pd.DataFrame(), 0, 0)`.
Fewer points than `window_size` (the count is that of the full column,
`len(heights) = len(df)`): global-statistics fallback.  Otherwise the
centered rolling median/std with `min_periods=1`.  A zero `window_size`
reaches the rolling construction, which pandas rejects
(`min_periods 1 must be <= window 0`); negative window sizes are not
representable here but are rejected by pandas the same way. -/
def method_sliding_median (df : PDataFrame) (window_size : ℕ) (threshold_std : ℚ) :
    Except String (PDataFrame × ℕ × ℕ) :=
  if df.rows = [] ∨ df.hasHt = false then .ok (emptyDF, 0, 0)
  else if df.rows.length < window_size then
    .ok (⟨df.hasHt, df.hasDtime, slidingGlobalKept df threshold_std⟩,
      df.rows.length, (slidingGlobalKept df threshold_std).length)
  else if window_size = 0 then .error "min_periods 1 must be <= window 0"
  else
    .ok (⟨df.hasHt, df.hasDtime, slidingRollingKept df window_size threshold_std⟩,
      df.rows.length, (slidingRollingKept df window_size threshold_std).length)

/-- The 2-D feature matrix handed to DBSCAN: along-track index paired with
`ht_water_surf * (eps_along / eps_height)`; a NaN height yields a NaN
feature.  Only meaningful for a nonzero `eps_height`: Python's float
division raises `ZeroDivisionError` there, which
`method_dbscan_elliptical` models with an explicit guard *before* this
feature matrix is ever formed, so ℚ's `x / 0 = 0` is never relied on. -/
def dbscanFeatures (df : PDataFrame) (eps_along eps_height : ℚ) : List (ℕ × Option ℚ) :=
  (List.range (sortWork df).length).zip
    ((sortWork df).map (fun r => r.ht.map (· * (eps_along / eps_height))))

/-- Pick the largest non-noise cluster: maximum by member count over the
distinct labels other than `-1`.  (Ties are broken by first occurrence;
the Python source iterates a `set`, whose order is unspecified — no claim
depends on the tie-break.) -/
def mainClusterOf (labels : List ℤ) : ℤ :=
  ((labels.filter (· ≠ -1)).dedup).foldl
    (fun best c => if labels.count best < labels.count c then c else best)
    (((labels.filter (· ≠ -1)).dedup).headD 0)

/-- Surviving rows of the clustering filter: the boolean mask
`labels == main_cluster` applied to the sorted working frame. -/
def dbscanKept (df : PDataFrame) (labels : List ℤ) : List Row :=
  applyMask (sortWork df) (labels.map (· == mainClusterOf labels))

/-- `method_dbscan_elliptical(df, eps_along, eps_height, min_samples)`.
The line `scale_factor = eps_along / eps_height` sits *outside* the
`try` block, so for `eps_height = 0` (reached only after the empty-frame
and `min_samples` early returns) Python raises an uncaught
`ZeroDivisionError` — hence the `Except` return type and the explicit
guard here, placed before the feature matrix is formed.  The scikit-learn
clustering routine is the parameter `dbscanFn`, given the feature matrix,
`eps_along` and `min_samples`; `none` models it raising (the `except`
branch of the source, which returns `(pd.DataFrame(), total, 0)`).
Otherwise the rows of the largest non-noise cluster survive, in
along-track order (the helper `along_track` column of the source is
dropped again and never appears here). -/
def method_dbscan_elliptical
    (dbscanFn : List (ℕ × Option ℚ) → ℚ → ℕ → Option (List ℤ))
    (df : PDataFrame) (eps_along eps_height : ℚ) (min_samples : ℕ) :
    Except String (PDataFrame × ℕ × ℕ) :=
  if df.rows = [] ∨ df.hasHt = false then .ok (emptyDF, 0, 0)
  else if df.rows.length < min_samples then .ok (emptyDF, df.rows.length, 0)
  else if eps_height = 0 then .error "float division by zero"
  else
    match dbscanFn (dbscanFeatures df eps_along eps_height) eps_along min_samples with
    | none => .ok (emptyDF, df.rows.length, 0)
    | some labels =>
      if (labels.filter (· ≠ -1)).dedup = [] then .ok (emptyDF, df.rows.length, 0)
      else
        .ok (⟨df.hasHt, df.hasDtime, dbscanKept df labels⟩,
          df.rows.length, (dbscanKept df labels).length)

/-- The statistics dictionary of `calculate_water_level_statistics`.
`none` fields encode NaN values (statistics of an empty height series).
The source stores the sample standard deviation; we keep its square
`var` (the claims never inspect it). -/
structure StatsRecord where
  count : ℕ
  mean : Option ℚ
  median : Option ℚ
  var : Option ℚ
  min : Option ℚ
  max : Option ℚ
  q25 : Option ℚ
  q75 : Option ℚ
  iqr : Option ℚ
  middle_50_mean : Option ℚ
deriving DecidableEq, Repr

/-- Mean of a height series; an empty pandas series has NaN mean. -/
def listMeanOpt (l : List ℚ) : Option ℚ :=
  if l = [] then none else some (listMeanQ l)

/-- pandas `Series.quantile(q)` (linear interpolation), NaN when empty. -/
def quantileOpt (l : List ℚ) (q : ℚ) : Option ℚ :=
  if l = [] then none else some (npPercentileQ l (100 * q))

/-- `calculate_water_level_statistics(df)`: `none` is the empty dict `{}`
returned when the frame is empty or the height column is absent.
Otherwise every statistic is computed over the non-NaN heights;
`middle_50_mean` averages the ascending-rank slice
`[int(n*0.25), int(n*0.75))` when at least 4 valid heights exist
(`n/4` and `3*n/4` in exact arithmetic) and falls back to the mean
otherwise. -/
def iqrOf (heights : List ℚ) : Option ℚ :=
  match quantileOpt heights (75 / 100), quantileOpt heights (25 / 100) with
  | some a, some b => some (a - b)
  | _, _ => none

/-- The `middle_50_mean` entry: for at least 4 valid heights the mean of
the ascending-rank slice `[int(n*0.25), int(n*0.75))` (the float products
`n*0.25` and `n*0.75` are exact, so the indices are `n/4` and `3*n/4`),
otherwise the plain mean. -/
def middle50Of (heights : List ℚ) : Option ℚ :=
  if 4 ≤ heights.length then
    listMeanOpt (((heights.insertionSort (· ≤ ·)).drop (heights.length / 4)).take
      (3 * heights.length / 4 - heights.length / 4))
  else listMeanOpt heights

def calculate_water_level_statistics (df : PDataFrame) : Option StatsRecord :=
  if df.rows = [] ∨ df.hasHt = false then none
  else
    some
      ⟨df.valids.length, listMeanOpt df.valids, quantileOpt df.valids (50 / 100),
        if 2 ≤ df.valids.length then some (sampleVarQ df.valids) else none,
        df.valids.min?, df.valids.max?,
        quantileOpt df.valids (25 / 100), quantileOpt df.valids (75 / 100),
        iqrOf df.valids, middle50Of df.valids⟩

/-- Parameter record standing for the `method_params` dictionary of the
batch driver (each strategy reads only its own fields). -/
structure MethodParams where
  eps_along : ℚ
  eps_height : ℚ
  min_samples : ℕ
  window_size : ℕ
  threshold_std : ℚ
  lower_percentile : ℚ
  upper_percentile : ℚ
deriving DecidableEq, Repr

/-- Strategy dispatch of the batch loop: `none` models the `else:
continue` arm for an unrecognized method name. -/
def dispatchMethod (fn : List (ℕ × Option ℚ) → ℚ → ℕ → Option (List ℤ))
    (method : String) (p : MethodParams) (df : PDataFrame) :
    Option (Except String (PDataFrame × ℕ × ℕ)) :=
  match method with
  | "dbscan" => some (method_dbscan_elliptical fn df p.eps_along p.eps_height p.min_samples)
  | "sliding_median" => some (method_sliding_median df p.window_size p.threshold_std)
  | "percentile" => some (method_middle_percentile df p.lower_percentile p.upper_percentile)
  | _ => none

/-- One iteration of the `batch_process_csv_files` loop body, acting on
the accumulator `(all_filtered_data-as-rows, total_points, total_kept)`.
A file is an `Except`: `.error` models `pd.read_csv` raising.  The
enclosing `try` swallows every exception (read or strategy), an empty
frame is skipped, and an empty filtered frame contributes only its total. -/
def batchStep (fn : List (ℕ × Option ℚ) → ℚ → ℕ → Option (List ℤ))
    (method : String) (p : MethodParams)
    (acc : List Row × ℕ × ℕ) (file : Except String PDataFrame) :
    List Row × ℕ × ℕ :=
  match file with
  | .error _ => acc
  | .ok df =>
    if df.rows = [] then acc
    else
      match dispatchMethod fn method p df with
      | none => acc
      | some (.error _) => acc
      | some (.ok (fdf, ftotal, fkept)) =>
        if fdf.rows = [] then (acc.1, acc.2.1 + ftotal, acc.2.2)
        else (acc.1 ++ fdf.rows, acc.2.1 + ftotal, acc.2.2 + fkept)

/-- `batch_process_csv_files(csv_files, method, method_params)`: fold the
loop body over the files in order and concatenate the surviving frames
(the merged frame's rows; its column bookkeeping under `pd.concat` is not
needed by any claim, and progress display is UI-only). -/
def batch_process_csv_files (fn : List (ℕ × Option ℚ) → ℚ → ℕ → Option (List ℤ))
    (files : List (Except String PDataFrame)) (method : String) (p : MethodParams) :
    List Row × ℕ × ℕ :=
  files.foldl (batchStep fn method p) ([], 0, 0)

/-- Per-file contribution of the batch loop, as a single value: `none`
when the file is skipped (read error, empty frame, unknown method, or the
strategy raising), otherwise the file's filtered rows and its two counts. -/
def fileOutcome (fn : List (ℕ × Option ℚ) → ℚ → ℕ → Option (List ℤ))
    (method : String) (p : MethodParams) (file : Except String PDataFrame) :
    Option (List Row × ℕ × ℕ) :=
  match file with
  | .error _ => none
  | .ok df =>
    if df.rows = [] then some ([], 0, 0)
    else
      match dispatchMethod fn method p df with
      | none => none
      | some (.error _) => none
      | some (.ok (fdf, ftotal, fkept)) => some (fdf.rows, ftotal, fkept)

/-! ### Concrete datasets used by witnesses and counterexamples -/

/-- A row with a valid height and a distinguishing payload. -/
def rowOf (q : ℚ) (k : ℕ) : Row := ⟨some q, 0, k⟩

/-- The spec's concrete percentile scenario: heights `[1,…,9,100]`. -/
def df10 : PDataFrame :=
  ⟨true, false,
    [rowOf 1 0, rowOf 2 1, rowOf 3 2, rowOf 4 3, rowOf 5 4,
      rowOf 6 5, rowOf 7 6, rowOf 8 7, rowOf 9 8, rowOf 100 9]⟩

/-- A single-row frame with a valid height. -/
def df1 : PDataFrame := ⟨true, false, [rowOf 5 0]⟩

/-- A two-row frame with valid heights. -/
def df2 : PDataFrame := ⟨true, false, [rowOf 1 0, rowOf 2 1]⟩

/-- Three rows: two near 10 and one far outlier. -/
def df3 : PDataFrame := ⟨true, false, [rowOf 10 0, rowOf 11 1, rowOf 50 2]⟩

/-- Five rows with heights `1..5`. -/
def df5 : PDataFrame :=
  ⟨true, false, [rowOf 1 0, rowOf 2 1, rowOf 3 2, rowOf 4 3, rowOf 5 4]⟩

/-- The height column is present but entirely null. -/
def dfNull : PDataFrame := ⟨true, false, [⟨none, 0, 0⟩]⟩

/-- A nonempty frame without the height column. -/
def dfNoCol : PDataFrame := ⟨false, false, [rowOf 7 0]⟩

/-! ### Helper lemmas about masks, sorting and variances -/

theorem applyMask_subset {l : List Row} {m : List Bool} {r : Row}
    (h : r ∈ applyMask l m) : r ∈ l := by
  unfold applyMask at h
  obtain ⟨⟨a, b⟩, hab, rfl⟩ := List.mem_map.mp h
  exact (List.of_mem_zip (List.mem_of_mem_filter hab)).1

theorem applyMask_length_le (l : List Row) (m : List Bool) :
    (applyMask l m).length ≤ l.length := by
  unfold applyMask
  calc (((l.zip m).filter (·.2)).map (·.1)).length
      = ((l.zip m).filter (·.2)).length := List.length_map _ _
    _ ≤ (l.zip m).length := List.length_filter_le _ _
    _ ≤ l.length := by rw [List.length_zip]; exact min_le_left _ _

theorem applyMask_map_eq_filter (l : List Row) (g : Row → Bool) :
    applyMask l (l.map g) = l.filter g := by
  induction l with
  | nil => rfl
  | cons a l ih =>
    unfold applyMask at ih ⊢
    simp only [List.map_cons, List.zip_cons_cons, List.filter_cons]
    cases hg : g a <;> simp [hg, ih]

theorem applyMask_all_false {l : List Row} {m : List Bool}
    (h : ∀ b ∈ m, b = false) : applyMask l m = [] := by
  induction l generalizing m with
  | nil => cases m <;> rfl
  | cons a l ih =>
    cases m with
    | nil => rfl
    | cons b m =>
      have hb : b = false := h b (List.mem_cons_self _ _)
      subst hb
      unfold applyMask
      simp only [List.zip_cons_cons, List.filter_cons]
      exact ih (fun x hx => h x (List.mem_cons_of_mem _ hx))

theorem applyMask_length_mono {l : List Row} {m₁ m₂ : List Bool}
    (h : ∀ i, m₁.getD i false = true → m₂.getD i false = true) :
    (applyMask l m₁).length ≤ (applyMask l m₂).length := by
  induction l generalizing m₁ m₂ with
  | nil =>
    cases m₁ <;> cases m₂ <;> simp [applyMask]
  | cons a l ih =>
    cases m₁ with
    | nil => simp [applyMask]
    | cons b₁ m₁ =>
      cases m₂ with
      | nil =>
        cases hb : b₁ with
        | false =>
          have hs : ∀ i, m₁.getD i false = true → ([] : List Bool).getD i false = true :=
            fun i hi => h (i + 1) hi
          have hih := @ih m₁ [] hs
          simpa [applyMask, hb] using hih
        | true => exact absurd (h 0 (by simpa using hb)) (by simp)
      | cons b₂ m₂ =>
        have hs : ∀ i, m₁.getD i false = true → m₂.getD i false = true :=
          fun i hi => h (i + 1) hi
        cases hb : b₁ with
        | true =>
          have hb₂ : b₂ = true := h 0 (by simpa using hb)
          subst hb₂
          simpa [applyMask, hb] using ih hs
        | false =>
          have step : (applyMask (a :: l) (b₂ :: m₂)).length =
              (if b₂ then 1 else 0) + (applyMask l m₂).length := by
            cases b₂ <;> simp [applyMask, Nat.add_comm]
          have : (applyMask l m₁).length ≤ (applyMask l m₂).length := ih hs
          calc (applyMask (a :: l) (false :: m₁)).length
              = (applyMask l m₁).length := by simp [applyMask]
            _ ≤ (applyMask l m₂).length := this
            _ ≤ (if b₂ then 1 else 0) + (applyMask l m₂).length := Nat.le_add_left _ _
            _ = (applyMask (a :: l) (b₂ :: m₂)).length := step.symm

theorem sortWork_perm (df : PDataFrame) : (sortWork df).Perm df.rows := by
  unfold sortWork
  split
  · exact List.perm_insertionSort _ _
  · exact List.Perm.refl _

theorem sortWork_length (df : PDataFrame) : (sortWork df).length = df.rows.length :=
  (sortWork_perm df).length_eq

theorem sortWork_mem {df : PDataFrame} {r : Row} (h : r ∈ sortWork df) : r ∈ df.rows :=
  ((sortWork_perm df).mem_iff).mp h

theorem sum_sq_nonneg (c : ℚ) (l : List ℚ) :
    0 ≤ (l.map (fun x => (x - c) ^ 2)).sum := by
  induction l with
  | nil => simp
  | cons a l ih =>
    simp only [List.map_cons, List.sum_cons]
    positivity

theorem popVarQ_nonneg (l : List ℚ) : 0 ≤ popVarQ l := by
  unfold popVarQ
  exact div_nonneg (sum_sq_nonneg _ _) (by positivity)

theorem sampleVarQ_nonneg {l : List ℚ} (h : 2 ≤ l.length) : 0 ≤ sampleVarQ l := by
  unfold sampleVarQ
  apply div_nonneg (sum_sq_nonneg _ _)
  have : (2 : ℚ) ≤ (l.length : ℚ) := by exact_mod_cast h
  linarith

theorem sqKeep_mono {h m v : ℚ} {t t' : ℚ} (hv : 0 ≤ v) (htt : t ≤ t')
    (hk : sqKeep h m t v = true) : sqKeep h m t' v = true := by
  by_cases hv0 : v = 0
  · simpa [sqKeep, hv0] using hk
  · simp only [sqKeep, if_neg hv0, Bool.and_eq_true, decide_eq_true_eq] at hk ⊢
    obtain ⟨ht0, hle⟩ := hk
    have ht2 : t ^ 2 ≤ t' ^ 2 := by nlinarith
    exact ⟨le_trans ht0 htt, le_trans hle (mul_le_mul_of_nonneg_right ht2 hv)⟩

/-- The squared-form mask is exactly the source's
`|h - med| ≤ t * std` with `std = √var`. -/
theorem sqKeep_iff_sqrt {h m t v : ℚ} (hv : 0 ≤ v) :
    sqKeep h m t v = true ↔ |(h : ℝ) - (m : ℝ)| ≤ (t : ℝ) * Real.sqrt v := by
  unfold sqKeep
  split
  · rename_i hv0
    subst hv0
    simp only [Rat.cast_zero, Real.sqrt_zero, mul_zero, abs_nonpos_iff, sub_eq_zero,
      decide_eq_true_eq]
    exact ⟨fun hh => by exact_mod_cast hh, fun hh => by exact_mod_cast hh⟩
  · rename_i hvne
    have hvpos : (0 : ℝ) < (v : ℝ) := by
      have : (0 : ℝ) ≤ (v : ℝ) := by exact_mod_cast hv
      rcases lt_or_eq_of_le this with h' | h'
      · exact h'
      · exact absurd (by exact_mod_cast h'.symm : v = 0) hvne
    have hsq : (0 : ℝ) < Real.sqrt v := Real.sqrt_pos.mpr hvpos
    have hssq : Real.sqrt v ^ 2 = (v : ℝ) := Real.sq_sqrt hvpos.le
    simp only [Bool.and_eq_true, decide_eq_true_eq]
    constructor
    · rintro ⟨ht0, hle⟩
      have ht0R : (0 : ℝ) ≤ (t : ℝ) := by exact_mod_cast ht0
      have hleR : ((h : ℝ) - m) ^ 2 ≤ (t : ℝ) ^ 2 * v := by exact_mod_cast hle
      nlinarith [sq_abs ((h : ℝ) - m), abs_nonneg ((h : ℝ) - m),
        mul_nonneg ht0R hsq.le]
    · intro habs
      have ht0R : (0 : ℝ) ≤ (t : ℝ) := by
        by_contra hneg
        push_neg at hneg
        have : (t : ℝ) * Real.sqrt v < 0 := mul_neg_of_neg_of_pos hneg hsq
        exact absurd (lt_of_le_of_lt habs this) (not_lt.mpr (abs_nonneg _))
      refine ⟨by exact_mod_cast ht0R, ?_⟩
      have hsqle : ((h : ℝ) - m) ^ 2 ≤ (t : ℝ) ^ 2 * v := by
        nlinarith [sq_abs ((h : ℝ) - m), abs_nonneg ((h : ℝ) - m),
          mul_nonneg ht0R hsq.le]
      exact_mod_cast hsqle

/-! ### Monotonicity of the linear-interpolation percentile -/

theorem getD_default_irrel {s : List ℚ} {i : ℕ} (h : i < s.length) (d : ℚ) :
    s.getD i d = s.getD i 0 := by
  simp [List.getD_eq_getElem?_getD, List.getElem?_eq_getElem h]

theorem sorted_getD_mono {s : List ℚ} (hs : s.Sorted (· ≤ ·)) {i j : ℕ}
    (hij : i ≤ j) (hj : j < s.length) : s.getD i 0 ≤ s.getD j 0 := by
  have hi : i < s.length := lt_of_le_of_lt hij hj
  rw [List.getD_eq_getElem?_getD, List.getD_eq_getElem?_getD,
    List.getElem?_eq_getElem hi, List.getElem?_eq_getElem hj]
  exact hs.rel_get_of_le (show (⟨i, hi⟩ : Fin s.length) ≤ ⟨j, hj⟩ from hij)

theorem sorted_getD_succ {s : List ℚ} (hs : s.Sorted (· ≤ ·)) {i : ℕ}
    (hi : i < s.length) : s.getD i 0 ≤ s.getD (i + 1) (s.getD i 0) := by
  by_cases h : i + 1 < s.length
  · rw [getD_default_irrel h]
    exact sorted_getD_mono hs (Nat.le_succ i) h
  · have hge : s.length ≤ i + 1 := by omega
    have hd : s.getD (i + 1) (s.getD i 0) = s.getD i 0 := by
      rw [List.getD_eq_getElem?_getD, List.getElem?_eq_none hge]
      rfl
    rw [hd]

/-- Cast form of `Int.floor_le` through `toNat` for nonnegative inputs. -/
theorem toNat_floor_cast_le {a : ℚ} (ha : 0 ≤ a) : (((⌊a⌋).toNat : ℕ) : ℚ) ≤ a := by
  have h1 : (((⌊a⌋).toNat : ℕ) : ℚ) = ((⌊a⌋ : ℤ) : ℚ) := by
    exact_mod_cast congrArg (fun z : ℤ => (z : ℚ))
      (Int.toNat_of_nonneg (Int.floor_nonneg.mpr ha))
  rw [h1]
  exact Int.floor_le a

/-- Cast form of `Int.lt_floor_add_one` through `toNat`. -/
theorem lt_toNat_floor_add_one {a : ℚ} (ha : 0 ≤ a) : a < (((⌊a⌋).toNat : ℕ) : ℚ) + 1 := by
  have h1 : (((⌊a⌋).toNat : ℕ) : ℚ) = ((⌊a⌋ : ℤ) : ℚ) := by
    exact_mod_cast congrArg (fun z : ℤ => (z : ℚ))
      (Int.toNat_of_nonneg (Int.floor_nonneg.mpr ha))
  rw [h1]
  exact_mod_cast Int.lt_floor_add_one a

theorem interpAt_le_next {s : List ℚ} (hs : s.Sorted (· ≤ ·)) {a : ℚ}
    (ha : 0 ≤ a) (hnext : (⌊a⌋).toNat + 1 < s.length) :
    interpAt s a ≤ s.getD ((⌊a⌋).toNat + 1) 0 := by
  unfold interpAt
  have hfrac1 : a - (((⌊a⌋).toNat : ℕ) : ℚ) < 1 := by
    have := lt_toNat_floor_add_one ha
    linarith
  have hii : (⌊a⌋).toNat < s.length := by omega
  have hlohi : s.getD ((⌊a⌋).toNat) 0 ≤ s.getD ((⌊a⌋).toNat + 1) 0 :=
    sorted_getD_mono hs (Nat.le_succ _) hnext
  rw [getD_default_irrel hnext]
  nlinarith [hlohi]

theorem le_interpAt {s : List ℚ} (hs : s.Sorted (· ≤ ·)) {a : ℚ}
    (ha : 0 ≤ a) (hin : (⌊a⌋).toNat < s.length) :
    s.getD ((⌊a⌋).toNat) 0 ≤ interpAt s a := by
  unfold interpAt
  have hfrac0 : 0 ≤ a - (((⌊a⌋).toNat : ℕ) : ℚ) := by
    have := toNat_floor_cast_le ha
    linarith
  have hlohi : s.getD ((⌊a⌋).toNat) 0 ≤ s.getD ((⌊a⌋).toNat + 1) (s.getD ((⌊a⌋).toNat) 0) :=
    sorted_getD_succ hs hin
  nlinarith [hlohi]

theorem interpAt_mono {s : List ℚ} (hs : s.Sorted (· ≤ ·)) {a b : ℚ}
    (ha : 0 ≤ a) (hab : a ≤ b) (hb : b ≤ (s.length : ℚ) - 1) :
    interpAt s a ≤ interpAt s b := by
  have hb0 : 0 ≤ b := le_trans ha hab
  have hlen1 : 1 ≤ s.length := by
    rcases Nat.eq_zero_or_pos s.length with h0 | h1
    · rw [h0] at hb
      norm_num at hb
      linarith
    · exact h1
  have hfa : (⌊a⌋).toNat ≤ (⌊b⌋).toNat :=
    Int.toNat_le_toNat (Int.floor_le_floor hab)
  have hfbn : (⌊b⌋).toNat < s.length := by
    have h1 : ⌊b⌋ ≤ ⌊(s.length : ℚ) - 1⌋ := Int.floor_le_floor hb
    have h2 : ⌊(s.length : ℚ) - 1⌋ = (s.length : ℤ) - 1 := by
      rw [show ((s.length : ℚ) - 1) = (((s.length : ℤ) - 1 : ℤ) : ℚ) by push_cast; ring]
      exact Int.floor_intCast _
    omega
  by_cases hcase : (⌊a⌋).toNat = (⌊b⌋).toNat
  · unfold interpAt
    rw [hcase]
    have hfa0 : (((⌊b⌋).toNat : ℕ) : ℚ) ≤ a := by
      have := toNat_floor_cast_le ha
      rw [hcase] at this
      exact this
    have hlohi : s.getD ((⌊b⌋).toNat) 0 ≤
        s.getD ((⌊b⌋).toNat + 1) (s.getD ((⌊b⌋).toNat) 0) :=
      sorted_getD_succ hs hfbn
    nlinarith [hlohi, mul_nonneg (sub_nonneg.mpr hab) (sub_nonneg.mpr hlohi)]
  · have hlt : (⌊a⌋).toNat + 1 ≤ (⌊b⌋).toNat := by omega
    have h1 : interpAt s a ≤ s.getD ((⌊a⌋).toNat + 1) 0 :=
      interpAt_le_next hs ha (lt_of_le_of_lt (Nat.lt_of_lt_of_le (Nat.lt_succ_self _) hlt) hfbn)
    have h2 : s.getD ((⌊a⌋).toNat + 1) 0 ≤ s.getD ((⌊b⌋).toNat) 0 :=
      sorted_getD_mono hs hlt hfbn
    have h3 : s.getD ((⌊b⌋).toNat) 0 ≤ interpAt s b := le_interpAt hs hb0 hfbn
    linarith

theorem npPercentileQ_mono (xs : List ℚ) (hxs : xs ≠ []) {p q : ℚ}
    (hp : 0 ≤ p) (hpq : p ≤ q) (hq : q ≤ 100) :
    npPercentileQ xs p ≤ npPercentileQ xs q := by
  unfold npPercentileQ
  have hsort : (xs.insertionSort (· ≤ ·)).Sorted (· ≤ ·) :=
    List.sorted_insertionSort _ _
  have hlen1 : 1 ≤ (xs.insertionSort (· ≤ ·)).length := by
    rw [(List.perm_insertionSort _ _).length_eq]
    exact List.length_pos.mpr hxs
  have hnQ : (1 : ℚ) ≤ ((xs.insertionSort (· ≤ ·)).length : ℚ) := by exact_mod_cast hlen1
  have h1 : (0 : ℚ) ≤ ((xs.insertionSort (· ≤ ·)).length : ℚ) - 1 := by linarith
  apply interpAt_mono hsort
  · positivity
  · have := mul_le_mul_of_nonneg_right hpq h1
    linarith
  · have := mul_le_mul_of_nonneg_right hq h1
    linarith

/-! ### Shape invariants of the three filter strategies -/
theorem percentile_shape {df : PDataFrame} {lo hi : ℚ} {trip : PDataFrame × ℕ × ℕ}
    (h : method_middle_percentile df lo hi = .ok trip) :
    trip.2.2 = trip.1.rows.length ∧ trip.2.2 ≤ trip.2.1 ∧
      ∀ r ∈ trip.1.rows, r ∈ df.rows := by
  unfold method_middle_percentile at h
  split at h
  · obtain rfl := Except.ok.inj h
    simp [emptyDF]
  · split at h
    · exact absurd h (by simp)
    · split at h
      · exact absurd h (by simp)
      · obtain rfl := Except.ok.inj h
        exact ⟨rfl, List.length_filter_le _ _, fun r hr => List.mem_of_mem_filter hr⟩

theorem slidingGlobalKept_length (df : PDataFrame) (t : ℚ) :
    (slidingGlobalKept df t).length ≤ df.rows.length := by
  calc (slidingGlobalKept df t).length
      ≤ (sortWork df).length := applyMask_length_le _ _
    _ = df.rows.length := sortWork_length df

theorem slidingRollingKept_length (df : PDataFrame) (w : ℕ) (t : ℚ) :
    (slidingRollingKept df w t).length ≤ df.rows.length := by
  calc (slidingRollingKept df w t).length
      ≤ (sortWork df).length := applyMask_length_le _ _
    _ = df.rows.length := sortWork_length df

theorem sliding_shape {df : PDataFrame} {w : ℕ} {t : ℚ} {trip : PDataFrame × ℕ × ℕ}
    (h : method_sliding_median df w t = .ok trip) :
    trip.2.2 = trip.1.rows.length ∧ trip.2.2 ≤ trip.2.1 ∧
      ∀ r ∈ trip.1.rows, r ∈ df.rows := by
  unfold method_sliding_median at h
  split at h
  · obtain rfl := Except.ok.inj h
    simp [emptyDF]
  · split at h
    · obtain rfl := Except.ok.inj h
      exact ⟨rfl, slidingGlobalKept_length df t,
        fun r hr => sortWork_mem (applyMask_subset hr)⟩
    · split at h
      · exact absurd h (by simp)
      · obtain rfl := Except.ok.inj h
        exact ⟨rfl, slidingRollingKept_length df w t,
          fun r hr => sortWork_mem (applyMask_subset hr)⟩

theorem dbscanKept_length (df : PDataFrame) (labels : List ℤ) :
    (dbscanKept df labels).length ≤ df.rows.length := by
  calc (dbscanKept df labels).length
      ≤ (sortWork df).length := applyMask_length_le _ _
    _ = df.rows.length := sortWork_length df

theorem dbscan_shape {fn : List (ℕ × Option ℚ) → ℚ → ℕ → Option (List ℤ)}
    {df : PDataFrame} {ea eh : ℚ} {ms : ℕ} {trip : PDataFrame × ℕ × ℕ}
    (h : method_dbscan_elliptical fn df ea eh ms = .ok trip) :
    trip.2.2 = trip.1.rows.length ∧ trip.2.2 ≤ trip.2.1 ∧
      ∀ r ∈ trip.1.rows, r ∈ df.rows := by
  unfold method_dbscan_elliptical at h
  split at h
  · obtain rfl := Except.ok.inj h
    simp [emptyDF]
  · split at h
    · obtain rfl := Except.ok.inj h
      simp [emptyDF]
    · split at h
      · exact absurd h (by simp)
      · split at h
        · obtain rfl := Except.ok.inj h
          simp [emptyDF]
        · split at h
          · obtain rfl := Except.ok.inj h
            simp [emptyDF]
          · obtain rfl := Except.ok.inj h
            exact ⟨rfl, dbscanKept_length df _,
              fun r hr => sortWork_mem (applyMask_subset hr)⟩

/-! ### The batch loop in closed form -/

theorem dispatch_kept_len {fn : List (ℕ × Option ℚ) → ℚ → ℕ → Option (List ℤ)}
    {method : String} {p : MethodParams} {df : PDataFrame}
    {trip : PDataFrame × ℕ × ℕ}
    (h : dispatchMethod fn method p df = some (.ok trip)) :
    trip.2.2 = trip.1.rows.length := by
  unfold dispatchMethod at h
  split at h
  · exact (dbscan_shape (Option.some.inj h)).1
  · exact (sliding_shape (Option.some.inj h)).1
  · exact (percentile_shape (Option.some.inj h)).1
  · exact absurd h (by simp)

theorem batchStep_eq (fn : List (ℕ × Option ℚ) → ℚ → ℕ → Option (List ℤ))
    (method : String) (p : MethodParams)
    (acc : List Row × ℕ × ℕ) (file : Except String PDataFrame) :
    batchStep fn method p acc file =
      match fileOutcome fn method p file with
      | none => acc
      | some o => (acc.1 ++ o.1, acc.2.1 + o.2.1, acc.2.2 + o.2.2) := by
  cases file with
  | error e => rfl
  | ok df =>
    by_cases hrows : df.rows = []
    · simp [batchStep, fileOutcome, hrows]
    · cases hd : dispatchMethod fn method p df with
      | none => simp [batchStep, fileOutcome, hrows, hd]
      | some res =>
        cases res with
        | error e => simp [batchStep, fileOutcome, hrows, hd]
        | ok trip =>
          obtain ⟨fdf, ftotal, fkept⟩ := trip
          by_cases hf : fdf.rows = []
          · have hk : fkept = 0 := by
              have := dispatch_kept_len hd
              simpa [hf] using this
            subst hk
            simp [batchStep, fileOutcome, hrows, hd, hf]
          · simp [batchStep, fileOutcome, hrows, hd, hf]

theorem batch_fold_eq (fn : List (ℕ × Option ℚ) → ℚ → ℕ → Option (List ℤ))
    (method : String) (p : MethodParams)
    (files : List (Except String PDataFrame)) (acc : List Row × ℕ × ℕ) :
    files.foldl (batchStep fn method p) acc =
      (acc.1 ++ ((files.filterMap (fileOutcome fn method p)).map (·.1)).flatten,
        acc.2.1 + ((files.filterMap (fileOutcome fn method p)).map (·.2.1)).sum,
        acc.2.2 + ((files.filterMap (fileOutcome fn method p)).map (·.2.2)).sum) := by
  induction files generalizing acc with
  | nil => simp
  | cons f fs ih =>
    rw [List.foldl_cons, batchStep_eq]
    cases ho : fileOutcome fn method p f with
    | none =>
      rw [ih]
      simp [List.filterMap_cons, ho]
    | some o =>
      rw [ih]
      simp [List.filterMap_cons, ho, List.append_assoc, Nat.add_assoc]

/-! ### Further helper lemmas for the claims -/

theorem npPercentileE_ok {xs : List ℚ} {p q : ℚ} (h : npPercentileE xs p = .ok q) :
    xs ≠ [] ∧ 0 ≤ p ∧ p ≤ 100 ∧ q = npPercentileQ xs p := by
  unfold npPercentileE at h
  split at h
  · exact absurd h (by simp)
  · split at h
    · exact absurd h (by simp)
    · rename_i hp hne
      push_neg at hp
      exact ⟨hne, hp.1, hp.2, (Except.ok.inj h).symm⟩

theorem length_filter_mono {l : List Row} {p q : Row → Bool}
    (h : ∀ a ∈ l, p a = true → q a = true) :
    (l.filter p).length ≤ (l.filter q).length := by
  rw [← List.countP_eq_length_filter, ← List.countP_eq_length_filter]
  exact List.countP_mono_left h

theorem mask_map_getD_mono {α : Type} {l : List α} {g g' : α → Bool}
    (h : ∀ x, g x = true → g' x = true) (i : ℕ)
    (hm : (l.map g).getD i false = true) : (l.map g').getD i false = true := by
  rcases hx : l[i]? with - | x
  · rw [List.getD_eq_getElem?_getD, List.getElem?_map, hx] at hm
    simp at hm
  · rw [List.getD_eq_getElem?_getD, List.getElem?_map, hx] at hm ⊢
    simpa using h x (by simpa using hm)

theorem npVarPopOpt_some_nonneg {hs : List (Option ℚ)} {v : ℚ}
    (h : npVarPopOpt hs = some v) : 0 ≤ v := by
  unfold npVarPopOpt at h
  split at h
  · exact Option.noConfusion h
  · obtain rfl := Option.some.inj h
    exact popVarQ_nonneg _

theorem rollVar_some_nonneg {hs : List (Option ℚ)} {w i : ℕ} {v : ℚ}
    (h : rollVar hs w i = some v) : 0 ≤ v := by
  unfold rollVar at h
  split at h
  · obtain rfl := Option.some.inj h
    exact sampleVarQ_nonneg (by assumption)
  · exact Option.noConfusion h

theorem globalMaskRow_mono {med var : Option ℚ} {t t' : ℚ} (htt : t ≤ t')
    (hvar : ∀ v, var = some v → 0 ≤ v)
    (x : Option ℚ) (hm : globalMaskRow med var t x = true) :
    globalMaskRow med var t' x = true := by
  cases x with
  | none => cases med <;> cases var <;> simp [globalMaskRow] at hm
  | some hv =>
    cases med with
    | none => cases var <;> simp [globalMaskRow] at hm
    | some m =>
      cases var with
      | none => simp [globalMaskRow] at hm
      | some v =>
        simp only [globalMaskRow] at hm ⊢
        exact sqKeep_mono (hvar v rfl) htt hm

theorem rollingMaskAt_mono {hs : List (Option ℚ)} {w : ℕ} {t t' : ℚ} (htt : t ≤ t')
    (i : ℕ) (hm : rollingMaskAt hs w t i = true) : rollingMaskAt hs w t' i = true := by
  rcases hg : hs.getD i none with - | h
  · unfold rollingMaskAt at hm
    rw [hg] at hm
    simp at hm
  · rcases hmed : rollMedian hs w i with - | m
    · unfold rollingMaskAt at hm
      rw [hg, hmed] at hm
      simp at hm
    · rcases hvar : rollVar hs w i with - | v
      · unfold rollingMaskAt at hm
        rw [hg, hmed, hvar] at hm
        simp at hm
      · unfold rollingMaskAt at hm ⊢
        rw [hg, hmed, hvar] at hm ⊢
        exact sqKeep_mono (rollVar_some_nonneg hvar) htt hm

theorem npPercentileQ_perm {l₁ l₂ : List ℚ} (h : l₁.Perm l₂) (p : ℚ) :
    npPercentileQ l₁ p = npPercentileQ l₂ p := by
  unfold npPercentileQ
  have hsorteq : l₁.insertionSort (· ≤ ·) = l₂.insertionSort (· ≤ ·) :=
    List.eq_of_perm_of_sorted
      ((List.perm_insertionSort _ _).trans (h.trans (List.perm_insertionSort _ _).symm))
      (List.sorted_insertionSort _ _) (List.sorted_insertionSort _ _)
  rw [hsorteq]

theorem listMeanQ_perm {l₁ l₂ : List ℚ} (h : l₁.Perm l₂) :
    listMeanQ l₁ = listMeanQ l₂ := by
  unfold listMeanQ
  rw [h.sum_eq, h.length_eq]

theorem popVarQ_perm {l₁ l₂ : List ℚ} (h : l₁.Perm l₂) :
    popVarQ l₁ = popVarQ l₂ := by
  unfold popVarQ
  rw [listMeanQ_perm h, (h.map _).sum_eq, h.length_eq]

theorem workHeights_filterMap_perm (df : PDataFrame) :
    ((workHeights df).filterMap id).Perm df.valids := by
  unfold workHeights PDataFrame.valids
  rw [List.filterMap_map]
  exact (sortWork_perm df).filterMap _

theorem fileOutcome_kept {fn : List (ℕ × Option ℚ) → ℚ → ℕ → Option (List ℤ)}
    {method : String} {p : MethodParams} {file : Except String PDataFrame}
    {o : List Row × ℕ × ℕ} (h : fileOutcome fn method p file = some o) :
    o.2.2 = o.1.length := by
  cases file with
  | error e => exact Option.noConfusion h
  | ok df =>
    simp only [fileOutcome] at h
    split at h
    · obtain rfl := Option.some.inj h
      rfl
    · cases hd : dispatchMethod fn method p df with
      | none => rw [hd] at h; exact Option.noConfusion h
      | some res =>
        cases res with
        | error e => rw [hd] at h; exact Option.noConfusion h
        | ok trip =>
          obtain ⟨fdf, ftotal, fkept⟩ := trip
          rw [hd] at h
          obtain rfl := Option.some.inj h
          exact dispatch_kept_len hd

/-! ### The claims -/

/-- C10: for a nonempty frame with the height column present and at least
`min_samples` rows, a failure inside the clustering step (the routine
returning `none`, e.g. scikit-learn rejecting NaN features) is caught and
the filter returns `(empty frame, original total, 0)` instead of
propagating the exception. -/
theorem C10_clustering_failure_handled :
    ∀ fn (df : PDataFrame) (ea eh : ℚ) (ms : ℕ),
      df.hasHt = true → df.rows ≠ [] → ms ≤ df.rows.length → eh ≠ 0 →
      fn (dbscanFeatures df ea eh) ea ms = none →
      method_dbscan_elliptical fn df ea eh ms = .ok (emptyDF, df.rows.length, 0) := by
  intro fn df ea eh ms hht hne hms heh hfail
  unfold method_dbscan_elliptical
  rw [if_neg (by simp [hne, hht]), if_neg (by omega), if_neg heh, hfail]

/-- Witness for C10 at a concrete one-row frame and the constantly-failing
clustering routine. -/
theorem C10_clustering_failure_handled_witness :
    df1.hasHt = true ∧ df1.rows ≠ [] ∧ 1 ≤ df1.rows.length ∧ (2 : ℚ) ≠ 0 ∧
      method_dbscan_elliptical (fun _ _ _ => none) df1 50 2 1 = .ok (emptyDF, 1, 0) :=
  ⟨rfl, by decide, by decide, by norm_num,
    C10_clustering_failure_handled (fun _ _ _ => none) df1 50 2 1 rfl (by decide)
      (by decide) (by norm_num) rfl⟩

/-- C6: the batch aggregator equals its closed form — the merged rows are
the concatenation, in input-file order, of each non-skipped file's
filtered rows in their filtered order; the reported totals are the sums of
the per-file totals and retained counts over the files that did not error
(a file whose read or filter raises contributes nothing); and the merged
length equals the sum of the per-file retained counts. -/
theorem C6_batch_aggregator_closed_form :
    ∀ fn (files : List (Except String PDataFrame)) (method : String) (p : MethodParams),
      batch_process_csv_files fn files method p =
        (((files.filterMap (fileOutcome fn method p)).map (·.1)).flatten,
          ((files.filterMap (fileOutcome fn method p)).map (·.2.1)).sum,
          ((files.filterMap (fileOutcome fn method p)).map (·.2.2)).sum) ∧
      (batch_process_csv_files fn files method p).1.length =
        ((files.filterMap (fileOutcome fn method p)).map (·.2.2)).sum := by
  intro fn files method p
  have h1 : batch_process_csv_files fn files method p =
      (((files.filterMap (fileOutcome fn method p)).map (·.1)).flatten,
        ((files.filterMap (fileOutcome fn method p)).map (·.2.1)).sum,
        ((files.filterMap (fileOutcome fn method p)).map (·.2.2)).sum) := by
    unfold batch_process_csv_files
    rw [batch_fold_eq]
    simp
  refine ⟨h1, ?_⟩
  rw [h1]
  simp only [List.length_flatten, List.map_map]
  apply congrArg List.sum
  apply List.map_congr_left
  intro o ho
  obtain ⟨file, hfile, hsome⟩ := List.mem_filterMap.mp ho
  exact (fileOutcome_kept hsome).symm

unseal Rat.mul Rat.inv Rat.add Rat.sub in
/-- Counterexample to C4: the percentile filter invoked with inverted
(in-range) bounds `lower=90, upper=10` does not fail fast — it proceeds
and returns a normal result (here an empty selection with the full total),
so there is no validation at the strategy boundary. -/
theorem C4_counterexample :
    method_middle_percentile df10 90 10 = .ok (⟨true, false, []⟩, 10, 0) := by
  decide

/-- C4 (amended): the strategies perform no parameter validation of their
own.  With inverted in-range percentile bounds the percentile filter
proceeds and returns a normal result.  When the clustering library itself
rejects its parameters (e.g. non-positive radii or `min_samples`), the
strategy's exception handler swallows the error and returns
`(empty, total, 0)` — provided the scale factor was computable at all: a
zero `eps_height` raises an uncaught division error at the
`scale_factor` line, which sits before the `try` block and is never seen
by the handler.  A zero `window_size` likewise surfaces an error raised
inside the pandas rolling construction.  In every case the surfaced
errors come from the libraries, not from a boundary check. -/
theorem C4_no_parameter_validation :
    (∀ (df : PDataFrame) (lo hi : ℚ), df.hasHt = true → df.valids ≠ [] →
        0 ≤ hi → hi < lo → lo ≤ 100 →
        ∃ trip, method_middle_percentile df lo hi = .ok trip) ∧
    (∀ fn (df : PDataFrame) (ea eh : ℚ) (ms : ℕ), eh ≠ 0 →
        (∀ X m, fn X ea m = none) → df.hasHt = true → df.rows ≠ [] →
        method_dbscan_elliptical fn df ea eh ms = .ok (emptyDF, df.rows.length, 0)) ∧
    (∀ fn (df : PDataFrame) (ea : ℚ) (ms : ℕ), df.hasHt = true →
        df.rows ≠ [] → ms ≤ df.rows.length →
        method_dbscan_elliptical fn df ea 0 ms = .error "float division by zero") ∧
    (∀ (df : PDataFrame) (t : ℚ), df.hasHt = true → df.rows ≠ [] →
        method_sliding_median df 0 t = .error "min_periods 1 must be <= window 0") := by
  refine ⟨?_, ?_, ?_, ?_⟩
  · intro df lo hi hht hv h0 hinv h100
    have hrows : df.rows ≠ [] := by
      intro hc
      exact hv (by simp [PDataFrame.valids, hc])
    unfold method_middle_percentile npPercentileE
    rw [if_neg (by simp [hrows, hht]),
      if_neg (by push_neg; constructor <;> linarith), if_neg hv,
      if_neg (by push_neg; constructor <;> linarith), if_neg hv]
    exact ⟨_, rfl⟩
  · intro fn df ea eh ms heh hfn hht hne
    unfold method_dbscan_elliptical
    rw [if_neg (by simp [hne, hht])]
    by_cases hms : df.rows.length < ms
    · rw [if_pos hms]
    · rw [if_neg hms, if_neg heh, hfn]
  · intro fn df ea ms hht hne hms
    unfold method_dbscan_elliptical
    rw [if_neg (by simp [hne, hht]), if_neg (by omega), if_pos rfl]
  · intro df t hht hne
    unfold method_sliding_median
    rw [if_neg (by simp [hne, hht]), if_neg (by omega), if_pos rfl]

unseal Rat.mul Rat.inv Rat.add Rat.sub in
/-- Witness for C4 (amended) at concrete inputs: inverted bounds on the
ten-row frame still return `.ok`, a zero `eps_height` surfaces the
division error, and a zero window raises in the rolling construction. -/
theorem C4_no_parameter_validation_witness :
    df10.hasHt = true ∧ df10.valids ≠ [] ∧ (0 : ℚ) ≤ 10 ∧ (10 : ℚ) < 90 ∧
      (90 : ℚ) ≤ 100 ∧ (∃ trip, method_middle_percentile df10 90 10 = .ok trip) ∧
      1 ≤ df10.rows.length ∧
      method_dbscan_elliptical (fun _ _ _ => none) df10 50 0 1 =
        .error "float division by zero" ∧
      method_sliding_median df2 0 1 = .error "min_periods 1 must be <= window 0" := by
  refine ⟨rfl, by decide, by norm_num, by norm_num, by norm_num, ?_, by decide, ?_, ?_⟩
  · exact C4_no_parameter_validation.1 df10 90 10 rfl (by decide) (by norm_num)
      (by norm_num) (by norm_num)
  · exact C4_no_parameter_validation.2.2.1 (fun _ _ _ => none) df10 50 1 rfl (by decide)
      (by decide)
  · exact C4_no_parameter_validation.2.2.2 df2 1 rfl (by decide)

/-- The eight rows of `df10` with heights in `[1.9, 18.1]`. -/
def df10Kept8 : List Row :=
  [rowOf 2 1, rowOf 3 2, rowOf 4 3, rowOf 5 4, rowOf 6 5, rowOf 7 6, rowOf 8 7, rowOf 9 8]

unseal Rat.mul Rat.inv Rat.add Rat.sub in
/-- Counterexample to C2: on heights `[1,…,9,100]` the 90th
linear-interpolation percentile is `18.1` (not `≈ 8.1`), and the filter
with bounds `10, 90` retains 8 rows (not 7). -/
theorem C2_counterexample :
    npPercentileQ [1, 2, 3, 4, 5, 6, 7, 8, 9, 100] 90 = 181 / 10 ∧
      Except.map (fun trip => trip.2.2) (method_middle_percentile df10 10 90) = .ok 8 := by
  constructor
  · decide
  · decide

unseal Rat.mul Rat.inv Rat.add Rat.sub in
/-- C2 (amended): for the dataset with elevations `[1,…,9,100]` and
bounds `lower=10, upper=90`, numpy's linear-interpolation percentiles are
`q10 = 1.9` and `q90 = 18.1`, and the filter retains exactly the 8 rows
with elevations `{2,…,9}`, excluding the rows with elevation 1 and 100. -/
theorem C2_percentile_scenario :
    npPercentileQ [1, 2, 3, 4, 5, 6, 7, 8, 9, 100] 10 = 19 / 10 ∧
      npPercentileQ [1, 2, 3, 4, 5, 6, 7, 8, 9, 100] 90 = 181 / 10 ∧
      method_middle_percentile df10 10 90 = .ok (⟨true, false, df10Kept8⟩, 10, 8) := by
  refine ⟨by decide, by decide, by decide⟩

/-- Counterexample to C1: not every parameter choice yields a triple —
the sliding-window filter with `window_size = 0` on a nonempty frame
raises (inside the pandas rolling construction) instead of returning a
Filter Result. -/
theorem C1_counterexample :
    method_sliding_median df1 0 1 = .error "min_periods 1 must be <= window 0" := by
  rfl

/-- C1 (amended): every filter invocation that returns a triple satisfies
the Filter Result invariant: `retained_count = len(filtered) ≤
total_input_count`, and every surviving row is a row of the input with
all of its columns — elevation and pass-through payload alike —
unchanged.  Not every parameter choice returns a triple: the
counterexample shows the sliding filter raising for `window_size = 0` on
nonempty data. -/
theorem C1_filter_result_invariants :
    (∀ fn (df : PDataFrame) (ea eh : ℚ) (ms : ℕ) trip,
        method_dbscan_elliptical fn df ea eh ms = .ok trip →
        trip.2.2 = trip.1.rows.length ∧ trip.2.2 ≤ trip.2.1 ∧
          ∀ r ∈ trip.1.rows, r ∈ df.rows) ∧
    (∀ (df : PDataFrame) (w : ℕ) (t : ℚ) trip,
        method_sliding_median df w t = .ok trip →
        trip.2.2 = trip.1.rows.length ∧ trip.2.2 ≤ trip.2.1 ∧
          ∀ r ∈ trip.1.rows, r ∈ df.rows) ∧
    (∀ (df : PDataFrame) (lo hi : ℚ) trip,
        method_middle_percentile df lo hi = .ok trip →
        trip.2.2 = trip.1.rows.length ∧ trip.2.2 ≤ trip.2.1 ∧
          ∀ r ∈ trip.1.rows, r ∈ df.rows) :=
  ⟨fun _ _ _ _ _ _ h => dbscan_shape h,
    fun _ _ _ _ h => sliding_shape h,
    fun _ _ _ _ h => percentile_shape h⟩

unseal Rat.mul Rat.inv Rat.add Rat.sub in
/-- Witness for C1 (amended): the invariant instantiated on the concrete
percentile run over the ten-row frame. -/
theorem C1_filter_result_invariants_witness :
    method_middle_percentile df10 10 90 = .ok (⟨true, false, df10Kept8⟩, 10, 8) ∧
      (8 : ℕ) = df10Kept8.length ∧ (8 : ℕ) ≤ 10 := by
  have h : method_middle_percentile df10 10 90 = .ok (⟨true, false, df10Kept8⟩, 10, 8) := by
    decide
  have h2 := C1_filter_result_invariants.2.2 df10 10 90 (⟨true, false, df10Kept8⟩, 10, 8) h
  exact ⟨h, h2.1, h2.2.1⟩

/-- Counterexample to C3: on a nonempty frame whose height column is
entirely null, the statistics calculator does not return the empty record
(it returns a record with `count = 0` and NaN statistics), and the
percentile filter propagates the percentile routine's error on the empty
sample instead of returning an empty result. -/
theorem C3_counterexample :
    calculate_water_level_statistics dfNull ≠ none ∧
      method_middle_percentile dfNull 25 75 =
        .error "cannot do a non-empty take from an empty axes" := by
  constructor
  · decide
  · decide

theorem valids_nil_of_all_none {df : PDataFrame} (h : ∀ r ∈ df.rows, r.ht = none) :
    df.valids = [] :=
  List.filterMap_eq_nil_iff.mpr h

theorem slidingGlobalKept_all_none {df : PDataFrame}
    (h : ∀ r ∈ df.rows, r.ht = none) (t : ℚ) :
    slidingGlobalKept df t = [] := by
  unfold slidingGlobalKept
  apply applyMask_all_false
  intro b hb
  obtain ⟨x, hx, rfl⟩ := List.mem_map.mp hb
  obtain ⟨r, hr, rfl⟩ := List.mem_map.mp hx
  rw [h r (sortWork_mem hr)]
  cases npMedianOpt (workHeights df) <;> cases npVarPopOpt (workHeights df) <;> rfl

theorem slidingRollingKept_all_none {df : PDataFrame}
    (h : ∀ r ∈ df.rows, r.ht = none) (w : ℕ) (t : ℚ) :
    slidingRollingKept df w t = [] := by
  unfold slidingRollingKept
  apply applyMask_all_false
  intro b hb
  obtain ⟨i, hi, rfl⟩ := List.mem_map.mp hb
  have hget : (workHeights df).getD i none = none := by
    rw [List.getD_eq_getElem?_getD]
    cases hx : (workHeights df)[i]? with
    | none => rfl
    | some x =>
      obtain ⟨r, hr, rfl⟩ := List.mem_map.mp (List.getElem?_mem hx)
      rw [h r (sortWork_mem hr)]
      rfl
  unfold rollingMaskAt
  rw [hget]

theorem dbscanFeatures_all_none {df : PDataFrame} (hne : df.rows ≠ [])
    (h : ∀ r ∈ df.rows, r.ht = none) (ea eh : ℚ) :
    ∃ q ∈ dbscanFeatures df ea eh, q.2 = none := by
  obtain ⟨r, rest, hw⟩ : ∃ r rest, sortWork df = r :: rest := by
    cases hsw : sortWork df with
    | nil =>
      have hlen : df.rows.length = 0 := by rw [← sortWork_length df, hsw]; rfl
      exact absurd (List.length_eq_zero.mp hlen) hne
    | cons a l => exact ⟨a, l, rfl⟩
  have hr : r ∈ df.rows := sortWork_mem (by rw [hw]; exact List.mem_cons_self _ _)
  refine ⟨(0, r.ht.map (· * (ea / eh))), ?_, by rw [h r hr]; rfl⟩
  unfold dbscanFeatures
  rw [hw, List.length_cons, List.range_succ_eq_map, List.map_cons, List.zip_cons_cons]
  exact List.mem_cons_self _ _

/-- C3 (amended): if the elevation column is absent, all three filters
return the empty Filter Result `(empty, 0, 0)` without exception and the
statistics calculator returns the empty record.  If the column is present
but entirely null on a nonempty frame, the clustering filter — invoked
with a nonzero `eps_height`, since a zero one raises the scale-factor
division error before the clustering step is reached — and the sliding
filter (for a positive window) return an empty filtered dataset with the
original total and zero kept, without exception; the percentile filter
(for an in-range lower percentile; the range is validated first)
propagates the percentile routine's error on the empty valid sample; and
the statistics calculator returns a non-empty record whose `count` is 0
and whose statistics are all NaN. -/
theorem C3_missing_or_null_column :
    (∀ fn (df : PDataFrame) (ea eh : ℚ) (ms : ℕ), df.hasHt = false →
        method_dbscan_elliptical fn df ea eh ms = .ok (emptyDF, 0, 0)) ∧
    (∀ (df : PDataFrame) (w : ℕ) (t : ℚ), df.hasHt = false →
        method_sliding_median df w t = .ok (emptyDF, 0, 0)) ∧
    (∀ (df : PDataFrame) (lo hi : ℚ), df.hasHt = false →
        method_middle_percentile df lo hi = .ok (emptyDF, 0, 0)) ∧
    (∀ df : PDataFrame, df.hasHt = false →
        calculate_water_level_statistics df = none) ∧
    (∀ fn (df : PDataFrame) (ea eh : ℚ) (ms : ℕ), df.hasHt = true →
        df.rows ≠ [] → (∀ r ∈ df.rows, r.ht = none) → eh ≠ 0 →
        (∀ X (e : ℚ) (m : ℕ), (∃ q ∈ X, q.2 = none) → fn X e m = none) →
        method_dbscan_elliptical fn df ea eh ms = .ok (emptyDF, df.rows.length, 0)) ∧
    (∀ (df : PDataFrame) (w : ℕ) (t : ℚ), df.hasHt = true →
        df.rows ≠ [] → (∀ r ∈ df.rows, r.ht = none) → 1 ≤ w →
        method_sliding_median df w t =
          .ok (⟨true, df.hasDtime, []⟩, df.rows.length, 0)) ∧
    (∀ (df : PDataFrame) (lo hi : ℚ), df.hasHt = true →
        df.rows ≠ [] → (∀ r ∈ df.rows, r.ht = none) → 0 ≤ lo → lo ≤ 100 →
        method_middle_percentile df lo hi =
          .error "cannot do a non-empty take from an empty axes") ∧
    (∀ df : PDataFrame, df.hasHt = true →
        df.rows ≠ [] → (∀ r ∈ df.rows, r.ht = none) →
        calculate_water_level_statistics df =
          some ⟨0, none, none, none, none, none, none, none, none, none⟩) := by
  refine ⟨?_, ?_, ?_, ?_, ?_, ?_, ?_, ?_⟩
  · intro fn df ea eh ms hht
    unfold method_dbscan_elliptical
    rw [if_pos (Or.inr hht)]
  · intro df w t hht
    unfold method_sliding_median
    rw [if_pos (Or.inr hht)]
  · intro df lo hi hht
    unfold method_middle_percentile
    rw [if_pos (Or.inr hht)]
  · intro df hht
    unfold calculate_water_level_statistics
    rw [if_pos (Or.inr hht)]
  · intro fn df ea eh ms hht hne hnull heh hfn
    unfold method_dbscan_elliptical
    rw [if_neg (by simp [hne, hht])]
    by_cases hms : df.rows.length < ms
    · rw [if_pos hms]
    · rw [if_neg hms, if_neg heh,
        hfn _ ea ms (dbscanFeatures_all_none hne hnull ea eh)]
  · intro df w t hht hne hnull hw
    unfold method_sliding_median
    rw [if_neg (by simp [hne, hht])]
    by_cases hnw : df.rows.length < w
    · rw [if_pos hnw, slidingGlobalKept_all_none hnull t, hht]
      rfl
    · rw [if_neg hnw, if_neg (by omega), slidingRollingKept_all_none hnull w t, hht]
      rfl
  · intro df lo hi hht hne hnull hlo0 hlo100
    unfold method_middle_percentile npPercentileE
    rw [if_neg (by simp [hne, hht]),
      if_neg (by push_neg; constructor <;> linarith),
      if_pos (valids_nil_of_all_none hnull)]
  · intro df hht hne hnull
    unfold calculate_water_level_statistics
    rw [if_neg (by simp [hne, hht]), valids_nil_of_all_none hnull]
    rfl

/-- Witness for C3 (amended), at the concrete one-row all-null frame and
the no-column frame. -/
theorem C3_missing_or_null_column_witness :
    dfNull.hasHt = true ∧ dfNull.rows ≠ [] ∧ (∀ r ∈ dfNull.rows, r.ht = none) ∧
      (1 : ℕ) ≤ 3 ∧ dfNoCol.hasHt = false ∧
      method_sliding_median dfNull 3 1 = .ok (⟨true, false, []⟩, 1, 0) ∧
      calculate_water_level_statistics dfNoCol = none := by
  refine ⟨rfl, by decide, by decide, by decide, rfl, ?_, ?_⟩
  · exact C3_missing_or_null_column.2.2.2.2.2.1 dfNull 3 1 rfl (by decide) (by decide)
      (by decide)
  · exact C3_missing_or_null_column.2.2.2.1 dfNoCol rfl

/-- C7: when the statistics calculator returns a record, its count is the
number of valid elevations `n`; for `n ≥ 4` the `middle_50_mean` is the
mean of the ascending-rank slice `[floor(0.25*n), floor(0.75*n))` of the
valid elevations, and for `n < 4` it is the record's plain mean. -/
theorem C7_middle50_definition :
    ∀ (df : PDataFrame) rec, calculate_water_level_statistics df = some rec →
      rec.count = df.valids.length ∧
      (4 ≤ rec.count →
        rec.middle_50_mean = some (listMeanQ
          (((df.valids.insertionSort (· ≤ ·)).drop (df.valids.length / 4)).take
            (3 * df.valids.length / 4 - df.valids.length / 4)))) ∧
      (rec.count < 4 → rec.middle_50_mean = rec.mean) := by
  intro df rec h
  unfold calculate_water_level_statistics at h
  split at h
  · exact Option.noConfusion h
  · obtain rfl := Option.some.inj h
    refine ⟨rfl, ?_, ?_⟩
    · intro h4
      have h4' : 4 ≤ df.valids.length := h4
      show middle50Of df.valids = _
      unfold middle50Of
      rw [if_pos h4']
      unfold listMeanOpt
      rw [if_neg ?slice_ne]
      case slice_ne =>
        intro hc
        have hlen := congrArg List.length hc
        have hsort : (df.valids.insertionSort (· ≤ ·)).length = df.valids.length :=
          (List.perm_insertionSort _ _).length_eq
        rw [List.length_take, List.length_drop, hsort] at hlen
        simp only [List.length_nil] at hlen
        omega
    · intro h4
      have h4' : df.valids.length < 4 := h4
      show middle50Of df.valids = listMeanOpt df.valids
      unfold middle50Of
      rw [if_neg (by omega)]

/-- The statistics record of the frame with heights `1..5`. -/
def rec5 : StatsRecord :=
  ⟨5, some 3, some 3, some (5 / 2), some 1, some 5, some 2, some 4, some 2, some (5 / 2)⟩

unseal Rat.mul Rat.inv Rat.add Rat.sub in
/-- Witness for C7 on the concrete five-row frame: the middle-50 slice of
`[1..5]` is `[2, 3]`, whose mean is `5/2`. -/
theorem C7_middle50_definition_witness :
    calculate_water_level_statistics df5 = some rec5 ∧ 4 ≤ rec5.count ∧
      rec5.middle_50_mean = some (listMeanQ
        (((df5.valids.insertionSort (· ≤ ·)).drop (df5.valids.length / 4)).take
          (3 * df5.valids.length / 4 - df5.valids.length / 4))) := by
  have h : calculate_water_level_statistics df5 = some rec5 := by decide
  exact ⟨h, by decide, (C7_middle50_definition df5 rec5 h).2.1 (by decide)⟩

/-- C5: for `0 ≤ lo < hi ≤ 100`, every elevation retained by the
percentile filter lies in the closed interval of the two
linear-interpolation percentiles of the valid elevations, and tightening
the interval (raising `lo`, lowering `hi`) never increases the retained
count. -/
theorem C5_percentile_containment_monotone :
    ∀ (df : PDataFrame) (lo hi : ℚ), 0 ≤ lo → lo < hi → hi ≤ 100 →
      (∀ trip, method_middle_percentile df lo hi = .ok trip →
        ∀ r ∈ trip.1.rows, ∃ e, r.ht = some e ∧
          npPercentileQ df.valids lo ≤ e ∧ e ≤ npPercentileQ df.valids hi) ∧
      (∀ lo' hi', lo ≤ lo' → lo' < hi' → hi' ≤ hi →
        ∀ trip trip', method_middle_percentile df lo hi = .ok trip →
          method_middle_percentile df lo' hi' = .ok trip' →
          trip'.2.2 ≤ trip.2.2) := by
  intro df lo hi hlo0 hlohi hhi100
  constructor
  · intro trip h r hr
    unfold method_middle_percentile at h
    split at h
    · obtain rfl := Except.ok.inj h
      simp [emptyDF] at hr
    · cases hqlo : npPercentileE df.valids lo with
      | error e => rw [hqlo] at h; exact absurd h (by simp)
      | ok qlo =>
        rw [hqlo] at h
        cases hqhi : npPercentileE df.valids hi with
        | error e => rw [hqhi] at h; exact absurd h (by simp)
        | ok qhi =>
          rw [hqhi] at h
          obtain rfl := Except.ok.inj h
          have hm := List.of_mem_filter hr
          obtain ⟨-, -, -, rfl⟩ := npPercentileE_ok hqlo
          obtain ⟨-, -, -, rfl⟩ := npPercentileE_ok hqhi
          unfold percentileMask at hm
          cases hht : r.ht with
          | none => rw [hht] at hm; exact absurd hm (by simp)
          | some e =>
            rw [hht] at hm
            simp only [Bool.and_eq_true, decide_eq_true_eq] at hm
            exact ⟨e, rfl, hm.1, hm.2⟩
  · intro lo' hi' hlo hinner hhi trip trip' h h'
    by_cases hcond : df.rows = [] ∨ df.hasHt = false
    · unfold method_middle_percentile at h h'
      rw [if_pos hcond] at h h'
      obtain rfl := Except.ok.inj h
      obtain rfl := Except.ok.inj h'
      exact le_refl 0
    · unfold method_middle_percentile at h h'
      rw [if_neg hcond] at h h'
      cases hqlo : npPercentileE df.valids lo with
      | error e => rw [hqlo] at h; exact absurd h (by simp)
      | ok qlo =>
        rw [hqlo] at h
        cases hqhi : npPercentileE df.valids hi with
        | error e => rw [hqhi] at h; exact absurd h (by simp)
        | ok qhi =>
          rw [hqhi] at h
          obtain rfl := Except.ok.inj h
          cases hqlo' : npPercentileE df.valids lo' with
          | error e => rw [hqlo'] at h'; exact absurd h' (by simp)
          | ok qlo' =>
            rw [hqlo'] at h'
            cases hqhi' : npPercentileE df.valids hi' with
            | error e => rw [hqhi'] at h'; exact absurd h' (by simp)
            | ok qhi' =>
              rw [hqhi'] at h'
              obtain rfl := Except.ok.inj h'
              have hvne : df.valids ≠ [] := (npPercentileE_ok hqlo).1
              obtain ⟨-, -, -, rfl⟩ := npPercentileE_ok hqlo
              obtain ⟨-, -, -, rfl⟩ := npPercentileE_ok hqhi
              obtain ⟨-, -, -, rfl⟩ := npPercentileE_ok hqlo'
              obtain ⟨-, -, -, rfl⟩ := npPercentileE_ok hqhi'
              apply length_filter_mono
              intro a ha hmask
              have hq1 : npPercentileQ df.valids lo ≤ npPercentileQ df.valids lo' :=
                npPercentileQ_mono _ hvne hlo0 hlo (by linarith)
              have hq2 : npPercentileQ df.valids hi' ≤ npPercentileQ df.valids hi :=
                npPercentileQ_mono _ hvne (by linarith) hhi hhi100
              unfold percentileMask at hmask ⊢
              cases hht : a.ht with
              | none => rw [hht] at hmask; exact absurd hmask (by simp)
              | some e =>
                rw [hht] at hmask
                simp only [Bool.and_eq_true, decide_eq_true_eq] at hmask ⊢
                exact ⟨le_trans hq1 hmask.1, le_trans hmask.2 hq2⟩

/-- The four rows of `df10` with heights in `[3.25, 7.75]`. -/
def df10Kept4 : List Row := [rowOf 4 3, rowOf 5 4, rowOf 6 5, rowOf 7 6]

unseal Rat.mul Rat.inv Rat.add Rat.sub in
/-- Witness for C5: tightening `[10, 90]` to `[25, 75]` on the ten-row
frame drops the retained count from 8 to 4. -/
theorem C5_percentile_containment_monotone_witness :
    (0 : ℚ) ≤ 10 ∧ (10 : ℚ) < 90 ∧ (90 : ℚ) ≤ 100 ∧ (10 : ℚ) ≤ 25 ∧
      (25 : ℚ) < 75 ∧ (75 : ℚ) ≤ 90 ∧
      method_middle_percentile df10 10 90 = .ok (⟨true, false, df10Kept8⟩, 10, 8) ∧
      method_middle_percentile df10 25 75 = .ok (⟨true, false, df10Kept4⟩, 10, 4) ∧
      (4 : ℕ) ≤ 8 := by
  have h1 : method_middle_percentile df10 10 90 = .ok (⟨true, false, df10Kept8⟩, 10, 8) := by
    decide
  have h2 : method_middle_percentile df10 25 75 = .ok (⟨true, false, df10Kept4⟩, 10, 4) := by
    decide
  refine ⟨by norm_num, by norm_num, by norm_num, by norm_num, by norm_num, by norm_num,
    h1, h2, ?_⟩
  exact (C5_percentile_containment_monotone df10 10 90 (by norm_num) (by norm_num)
    (by norm_num)).2 25 75 (by norm_num) (by norm_num) (by norm_num)
    (⟨true, false, df10Kept8⟩, 10, 8) (⟨true, false, df10Kept4⟩, 10, 4) h1 h2

/-- C9: for a fixed dataset and window size, raising `threshold_std`
never decreases the sliding-window filter's retained count. -/
theorem C9_sliding_threshold_monotone :
    ∀ (df : PDataFrame) (w : ℕ) (t t' : ℚ), t ≤ t' →
      ∀ trip trip', method_sliding_median df w t = .ok trip →
        method_sliding_median df w t' = .ok trip' →
        trip.2.2 ≤ trip'.2.2 := by
  intro df w t t' htt trip trip' h h'
  unfold method_sliding_median at h h'
  by_cases hcond : df.rows = [] ∨ df.hasHt = false
  · rw [if_pos hcond] at h h'
    obtain rfl := Except.ok.inj h
    obtain rfl := Except.ok.inj h'
    exact le_refl 0
  · rw [if_neg hcond] at h h'
    by_cases hnw : df.rows.length < w
    · rw [if_pos hnw] at h h'
      obtain rfl := Except.ok.inj h
      obtain rfl := Except.ok.inj h'
      unfold slidingGlobalKept
      apply applyMask_length_mono
      intro i hmi
      exact mask_map_getD_mono
        (globalMaskRow_mono htt (fun v hv => npVarPopOpt_some_nonneg hv)) i hmi
    · rw [if_neg hnw] at h h'
      by_cases hw0 : w = 0
      · rw [if_pos hw0] at h
        exact absurd h (by simp)
      · rw [if_neg hw0] at h h'
        obtain rfl := Except.ok.inj h
        obtain rfl := Except.ok.inj h'
        unfold slidingRollingKept
        apply applyMask_length_mono
        intro i hmi
        exact mask_map_getD_mono (rollingMaskAt_mono htt) i hmi

unseal Rat.mul Rat.inv Rat.add Rat.sub in
/-- Witness for C9: on the three-point frame with an outlier, raising the
threshold from 1 to 10 raises the retained count from 2 to 3. -/
theorem C9_sliding_threshold_monotone_witness :
    (1 : ℚ) ≤ 10 ∧
      method_sliding_median df3 5 1 = .ok (⟨true, false, [rowOf 10 0, rowOf 11 1]⟩, 3, 2) ∧
      method_sliding_median df3 5 10 = .ok (⟨true, false, df3.rows⟩, 3, 3) ∧
      (2 : ℕ) ≤ 3 := by
  have h1 : method_sliding_median df3 5 1 =
      .ok (⟨true, false, [rowOf 10 0, rowOf 11 1]⟩, 3, 2) := by decide
  have h2 : method_sliding_median df3 5 10 = .ok (⟨true, false, df3.rows⟩, 3, 3) := by
    decide
  exact ⟨by norm_num, h1, h2,
    C9_sliding_threshold_monotone df3 5 1 10 (by norm_num) _ _ h1 h2⟩

theorem workHeights_ne_nil {df : PDataFrame} (hne : df.rows ≠ []) :
    workHeights df ≠ [] := by
  intro hc
  have hlen := congrArg List.length hc
  rw [workHeights, List.length_map, sortWork_length] at hlen
  exact hne (List.length_eq_zero.mp hlen)

/-- C8: the documented under-sized-input fallbacks.  The clustering filter
with fewer rows than `min_samples` returns `(empty, total, 0)` without
raising.  The sliding filter with fewer (all-valid) points than
`window_size` switches to the dataset-wide median and population standard
deviation, keeping exactly the rows whose absolute deviation from that
global median is at most `threshold_std × global_std` — stated with the
real square root via the proved equivalence of the squared form. -/
theorem C8_insufficient_data_fallbacks :
    (∀ fn (df : PDataFrame) (ea eh : ℚ) (ms : ℕ), df.hasHt = true →
        df.rows.length < ms →
        method_dbscan_elliptical fn df ea eh ms = .ok (emptyDF, df.rows.length, 0)) ∧
    (∀ (df : PDataFrame) (w : ℕ) (t : ℚ), df.hasHt = true → df.rows ≠ [] →
        (∀ r ∈ df.rows, r.ht ≠ none) → df.rows.length < w →
        method_sliding_median df w t =
          .ok (⟨true, df.hasDtime,
              (sortWork df).filter (fun r => globalMaskRow
                (npMedianOpt (workHeights df)) (npVarPopOpt (workHeights df)) t r.ht)⟩,
            df.rows.length,
            ((sortWork df).filter (fun r => globalMaskRow
              (npMedianOpt (workHeights df)) (npVarPopOpt (workHeights df)) t r.ht)).length) ∧
          npMedianOpt (workHeights df) = some (npMedianQ df.valids) ∧
          npVarPopOpt (workHeights df) = some (popVarQ df.valids) ∧
          ∀ e : ℚ, (globalMaskRow (npMedianOpt (workHeights df))
              (npVarPopOpt (workHeights df)) t (some e) = true ↔
            |(e : ℝ) - (npMedianQ df.valids : ℝ)| ≤
              (t : ℝ) * Real.sqrt (popVarQ df.valids))) := by
  constructor
  · intro fn df ea eh ms hht hms
    unfold method_dbscan_elliptical
    by_cases hrows : df.rows = []
    · rw [if_pos (Or.inl hrows), hrows]
      rfl
    · rw [if_neg (by simp [hrows, hht]), if_pos hms]
  · intro df w t hht hne hvalid hnw
    have hperm := workHeights_filterMap_perm df
    have hanyfalse : (workHeights df).any (·.isNone) = false := by
      rw [List.any_eq_false]
      intro x hx
      obtain ⟨r, hr, rfl⟩ := List.mem_map.mp hx
      have hv := hvalid r (sortWork_mem hr)
      cases hrt : r.ht with
      | none => exact absurd hrt hv
      | some q => simp [hrt]
    have hcondfalse : ¬(workHeights df = [] ∨ (workHeights df).any (·.isNone) = true) := by
      push_neg
      exact ⟨workHeights_ne_nil hne, by rw [hanyfalse]; exact Bool.false_ne_true⟩
    have hmed : npMedianOpt (workHeights df) = some (npMedianQ df.valids) := by
      unfold npMedianOpt
      rw [if_neg hcondfalse]
      unfold npMedianQ
      exact congrArg some (npPercentileQ_perm hperm 50)
    have hvar : npVarPopOpt (workHeights df) = some (popVarQ df.valids) := by
      unfold npVarPopOpt
      rw [if_neg hcondfalse]
      exact congrArg some (popVarQ_perm hperm)
    have hkept : slidingGlobalKept df t = (sortWork df).filter
        (fun r => globalMaskRow (npMedianOpt (workHeights df))
          (npVarPopOpt (workHeights df)) t r.ht) := by
      unfold slidingGlobalKept
      conv_lhs => rw [workHeights, List.map_map]
      exact applyMask_map_eq_filter _ _
    refine ⟨?_, hmed, hvar, ?_⟩
    · unfold method_sliding_median
      rw [if_neg (by simp [hne, hht]), if_pos hnw, hkept, hht]
    · intro e
      rw [hmed, hvar]
      show sqKeep e (npMedianQ df.valids) t (popVarQ df.valids) = true ↔ _
      exact sqKeep_iff_sqrt (popVarQ_nonneg _)

unseal Rat.mul Rat.inv Rat.add Rat.sub in
/-- Witness for C8 at concrete inputs: one row against `min_samples = 5`,
and the two-row frame against `window_size = 5`. -/
theorem C8_insufficient_data_fallbacks_witness :
    df1.hasHt = true ∧ df1.rows.length < 5 ∧
      method_dbscan_elliptical (fun _ _ _ => none) df1 50 2 5 = .ok (emptyDF, 1, 0) ∧
      df2.hasHt = true ∧ df2.rows ≠ [] ∧ (∀ r ∈ df2.rows, r.ht ≠ none) ∧
      df2.rows.length < 5 ∧
      npMedianOpt (workHeights df2) = some (npMedianQ df2.valids) ∧
      (globalMaskRow (npMedianOpt (workHeights df2)) (npVarPopOpt (workHeights df2))
          1 (some 1) = true ↔
        |((1 : ℚ) : ℝ) - (npMedianQ df2.valids : ℝ)| ≤
          ((1 : ℚ) : ℝ) * Real.sqrt (popVarQ df2.valids)) := by
  have hpart2 := C8_insufficient_data_fallbacks.2 df2 5 1 rfl (by decide) (by decide)
    (by decide)
  exact ⟨rfl, by decide,
    C8_insufficient_data_fallbacks.1 (fun _ _ _ => none) df1 50 2 5 rfl (by decide),
    rfl, by decide, by decide, by decide, hpart2.2.1, hpart2.2.2.2 1⟩
